import Mathlib

/-!
Shallow embedding of the core of the `xss-validator-playwright` repository,
together with proofs settling the claims of its specification.

Embedded modules (translated from the JavaScript source):

* `src/utils/cache.js`        — `generateCacheKey` (canonical fingerprint input).
* `src/utils/retry.js`        — `retry` (attempt loop, veto predicate, backoff).
* `src/utils/session.js`      — `releasePage` / page-pool discipline.
* `src/payloads/smartSelection.js` — `ensureDiversity` and the tail of
  `selectSmartPayloads` (second-pass fill, top-up, final slice).
* `src/unnamed/part_002`      — `detectXSS` (per-payload loop, cache
  interaction, monitor-flag handling, try/catch/finally skeleton with the
  JavaScript block-scoping of `releasePage` and `processedPayloads` made
  explicit) and `detectXSSParallel` (batching and stop-on-first-vulnerability).

Machine integers do not occur on any modelled path; JavaScript numbers used
here (counters, lengths, delays) are naturals that the source never overflows.
Effectful calls into the browser are modelled by prescribing their outcomes
(an environment record saying which operations succeed and what the page
observations are), and exceptions by `Except` / explicit outcome types.
-/

/-! ### JavaScript value model

Options objects are association lists `List (String × JVal)`; property access
is the first binding, a missing key is `undefined` (`none`).  `truthy` is the
JavaScript boolean coercion for the values that occur in the modelled code. -/

/-- Primitive JavaScript values appearing in the options objects of the
modelled code. -/
inductive JVal where
  | vstr (s : String)
  | vbool (b : Bool)
  | vnum (n : Int)
  | vnull
  deriving DecidableEq, Repr

/-- JavaScript truthiness of an optional value (`none` is `undefined`). -/
def truthy : Option JVal → Bool
  | none => false
  | some (.vstr s) => s ≠ ""
  | some (.vbool b) => b
  | some (.vnum n) => n ≠ 0
  | some .vnull => false

/-- Property lookup on an options object (first binding wins; objects cannot
hold duplicate keys, so any list with duplicates is read like the object it
denotes). -/
def jlookup (o : List (String × JVal)) (k : String) : Option JVal :=
  (o.find? (fun kv => kv.1 = k)).map (·.2)

theorem jlookup_cons (k k' : String) (v : JVal) (o : List (String × JVal)) :
    jlookup ((k, v) :: o) k' = if k = k' then some v else jlookup o k' := by
  by_cases h : k = k' <;> simp [jlookup, List.find?, h]

/-! ### Cache store: `generateCacheKey` (src/utils/cache.js, lines 26-44)

The source extracts the three result-affecting options with JavaScript
falsy-defaulting (`options.browser || 'chromium'`, `options.verifyExecution ||
false`, `options.submitSelector || null`), serializes
`{url, inputFieldSelector, payload, options: relevantOptions}` with
`JSON.stringify` (insertion order, hence a fixed key order), and md5-hashes the
string.  `generateCacheKey` below produces that canonical JSON string; the
final md5 step is a pure function of the string, so equal inputs give equal
fingerprints exactly when the strings are equal, which is all the claims about
the key assert. -/

/-- Result-affecting options extracted by `generateCacheKey`
(src/utils/cache.js lines 28-32). -/
structure RelevantOptions where
  browser : JVal
  verifyExecution : JVal
  submitSelector : JVal
  deriving DecidableEq, Repr

/-- JavaScript `x || d`: the value itself when truthy, the default otherwise. -/
def jsOr (v : Option JVal) (d : JVal) : JVal :=
  if truthy v then v.getD d else d

/-- Translation of lines 28-32 of src/utils/cache.js. -/
def relevantOptions (o : List (String × JVal)) : RelevantOptions :=
  { browser := jsOr (jlookup o "browser") (.vstr "chromium")
  , verifyExecution := jsOr (jlookup o "verifyExecution") (.vbool false)
  , submitSelector := jsOr (jlookup o "submitSelector") .vnull }

/-- JSON string escaping (backslash and double quote; the payloads and
selectors of the modelled runs contain no control characters). -/
def jsonEscape (s : String) : String :=
  s.toList.foldl (fun acc c =>
    if c = '\\' then acc ++ "\\\\"
    else if c = '"' then acc ++ "\\\"" else acc.push c) ""

/-- JSON serialization of a primitive value, as `JSON.stringify` renders it. -/
def JVal.toJson : JVal → String
  | .vstr s => "\"" ++ jsonEscape s ++ "\""
  | .vbool true => "true"
  | .vbool false => "false"
  | .vnum n => toString n
  | .vnull => "null"

/-- Translation of `generateCacheKey` (src/utils/cache.js lines 26-44): the
canonical configuration string built at lines 35-40.  The md5 digest of this
string (line 43) is omitted: it is a pure function of the string, so every
equality proved below transfers to the digests. -/
def generateCacheKey (url inputFieldSelector payload : String)
    (options : List (String × JVal)) : String :=
  let r := relevantOptions options
  "\x7b\"url\":" ++ JVal.toJson (.vstr url) ++
  ",\"inputFieldSelector\":" ++ JVal.toJson (.vstr inputFieldSelector) ++
  ",\"payload\":" ++ JVal.toJson (.vstr payload) ++
  ",\"options\":\x7b\"browser\":" ++ r.browser.toJson ++
  ",\"verifyExecution\":" ++ r.verifyExecution.toJson ++
  ",\"submitSelector\":" ++ r.submitSelector.toJson ++ "\x7d\x7d"

/-! ### Claim C5: determinism and option-insensitivity of `generateCacheKey` -/

/-- C5.  `generateCacheKey` is deterministic (it is a pure function of its
arguments, so repeated calls with the same inputs give the same fingerprint)
and unaffected by irrelevant options: two options objects agreeing on the
`browser`, `verifyExecution` and `submitSelector` properties yield the same
fingerprint whatever their other fields and their key order are, and
prepending any binding for a different key leaves the fingerprint unchanged. -/
theorem generateCacheKey_relevant_only
    (url sel payload : String) (o₁ o₂ : List (String × JVal))
    (hb : jlookup o₁ "browser" = jlookup o₂ "browser")
    (hv : jlookup o₁ "verifyExecution" = jlookup o₂ "verifyExecution")
    (hs : jlookup o₁ "submitSelector" = jlookup o₂ "submitSelector") :
    generateCacheKey url sel payload o₁ = generateCacheKey url sel payload o₂ ∧
    ∀ (k : String) (v : JVal) (o : List (String × JVal)),
      k ≠ "browser" → k ≠ "verifyExecution" → k ≠ "submitSelector" →
      generateCacheKey url sel payload ((k, v) :: o) =
        generateCacheKey url sel payload o := by
  constructor
  · simp [generateCacheKey, relevantOptions, hb, hv, hs]
  · intro k v o hk₁ hk₂ hk₃
    simp [generateCacheKey, relevantOptions, jlookup_cons, hk₁, hk₂, hk₃]

/-- Witness for C5 at concrete inputs: two objects with different key order
and different irrelevant fields, agreeing on the three relevant options. -/
theorem generateCacheKey_relevant_only_witness :
    generateCacheKey "http://t" "#q" "<b>x</b>"
        [("submitSelector", .vstr "#s"), ("browser", .vstr "firefox"),
         ("timeout", .vnum 5000)] =
      generateCacheKey "http://t" "#q" "<b>x</b>"
        [("browser", .vstr "firefox"), ("cacheEnabled", .vbool true),
         ("submitSelector", .vstr "#s")] :=
  (generateCacheKey_relevant_only "http://t" "#q" "<b>x</b>" _ _
    (by decide) (by decide) (by decide)).1

/-! ### Retry utility (src/utils/retry.js, lines 17-56)

`retry(fn, options)` runs `fn(attempt)` for `attempt = 1, …, maxAttempts`.  On
an error it rethrows immediately when `shouldRetry(error)` is false, throws a
wrapping error when the failing attempt was the last, and otherwise sleeps
`delay * 2^(attempt-1)` (or `delay` without backoff) and retries.  With
`maxAttempts < 1` the loop body never runs and the function returns
`undefined`.  The model returns the outcome together with the list of waits
performed and the number of calls made to `fn`; the attempt-indexed function
`fn : Nat → Except ε α` prescribes each attempt's outcome. -/

/-- Outcome of the `retry` loop. -/
inductive RetryResult (ε α : Type) where
  | ok (a : α)
  | vetoed (e : ε)
  | allFailed (e : ε)
  | noAttempts
  deriving DecidableEq, Repr

/-- Translation of the loop of `retry` (src/utils/retry.js lines 28-55),
running from a given attempt number; `fuel` is the number of remaining
attempts (`maxAttempts - attempt + 1`), which bounds the loop. -/
def retryGo (fn : Nat → Except ε α) (maxAttempts delay : Nat)
    (exponentialBackoff : Bool) (shouldRetry : ε → Bool) :
    Nat → Nat → RetryResult ε α × List Nat × Nat
  | 0, _ => (.noAttempts, [], 0)
  | fuel + 1, attempt =>
    match fn attempt with
    | .ok a => (.ok a, [], 1)
    | .error e =>
      if shouldRetry e = false then (.vetoed e, [], 1)
      else if attempt = maxAttempts then (.allFailed e, [], 1)
      else
        let d := if exponentialBackoff then delay * 2 ^ (attempt - 1) else delay
        let r := retryGo fn maxAttempts delay exponentialBackoff shouldRetry fuel (attempt + 1)
        (r.1, d :: r.2.1, r.2.2 + 1)

/-- Translation of `retry` (src/utils/retry.js lines 17-56): the loop starts
at attempt 1 with `maxAttempts` attempts remaining. -/
def retry (fn : Nat → Except ε α) (maxAttempts delay : Nat)
    (exponentialBackoff : Bool) (shouldRetry : ε → Bool) :
    RetryResult ε α × List Nat × Nat :=
  retryGo fn maxAttempts delay exponentialBackoff shouldRetry maxAttempts 1

theorem retryGo_calls_le (fn : Nat → Except ε α) (maxA d : Nat) (b : Bool)
    (sr : ε → Bool) (fuel attempt : Nat) :
    (retryGo fn maxA d b sr fuel attempt).2.2 ≤ fuel := by
  induction fuel generalizing attempt with
  | zero => simp [retryGo]
  | succ fuel ih =>
    simp only [retryGo]
    match hf : fn attempt with
    | .ok a => simp
    | .error e =>
      by_cases hsr : sr e = false
      · simp [hsr]
      · by_cases hl : attempt = maxA
        · simp [hsr, hl]
        · simpa [hsr, hl] using ih (attempt + 1)

theorem retryGo_waits (fn : Nat → Except ε α) (maxA d : Nat) (b : Bool)
    (sr : ε → Bool) (fuel attempt : Nat) (ha : 1 ≤ attempt) :
    ∀ i, i < (retryGo fn maxA d b sr fuel attempt).2.1.length →
      (retryGo fn maxA d b sr fuel attempt).2.1.getD i 0 =
        if b then d * 2 ^ (attempt - 1 + i) else d := by
  induction fuel generalizing attempt with
  | zero => intro i h; simp [retryGo] at h
  | succ fuel ih =>
    intro i h
    cases hf : fn attempt with
    | ok a => simp [retryGo, hf] at h
    | error e =>
      by_cases hsr : sr e = false
      · simp [retryGo, hf, hsr] at h
      · by_cases hl : attempt = maxA
        · subst hl
          simp [retryGo, hf, hsr] at h
        · simp only [retryGo, hf, hsr, hl, if_false, Bool.true_eq_false] at h ⊢
          match i with
          | 0 => simp
          | i + 1 =>
            have hlen : i < (retryGo fn maxA d b sr fuel (attempt + 1)).2.1.length := by
              simpa using h
            have := ih (attempt + 1) (by omega) i hlen
            simp only [List.getD_cons_succ]
            rw [this]
            have harith : attempt + 1 - 1 + i = attempt - 1 + (i + 1) := by omega
            rw [harith]

theorem retryGo_allFailed (fn : Nat → Except ε α) (maxA d : Nat) (b : Bool)
    (sr : ε → Bool) (fuel attempt : Nat)
    (hfuel : fuel + attempt = maxA + 1) (hle : attempt ≤ maxA)
    (herr : ∀ k, attempt ≤ k → k ≤ maxA → ∃ e, fn k = .error e ∧ sr e = true) :
    (∃ e, (retryGo fn maxA d b sr fuel attempt).1 = .allFailed e ∧
          fn maxA = .error e) ∧
    (retryGo fn maxA d b sr fuel attempt).2.2 = fuel := by
  induction fuel generalizing attempt with
  | zero => omega
  | succ fuel ih =>
    obtain ⟨e, hfe, hse⟩ := herr attempt le_rfl hle
    simp only [retryGo, hfe]
    by_cases hl : attempt = maxA
    · subst hl
      have : fuel = 0 := by omega
      subst this
      simp [hse, hfe]
    · have h1 : fuel + (attempt + 1) = maxA + 1 := by omega
      have h2 : attempt + 1 ≤ maxA := by omega
      have := ih (attempt + 1) h1 h2 (fun k hk1 hk2 => herr k (by omega) hk2)
      simp [hse, hl, this.1, this.2]

theorem retryGo_vetoed (fn : Nat → Except ε α) (maxA d : Nat) (b : Bool)
    (sr : ε → Bool) (fuel attempt k : Nat) (e : ε)
    (hfuel : fuel + attempt = maxA + 1) (hak : attempt ≤ k) (hkm : k ≤ maxA)
    (hbefore : ∀ j, attempt ≤ j → j < k → ∃ e', fn j = .error e' ∧ sr e' = true)
    (hfk : fn k = .error e) (hv : sr e = false) :
    (retryGo fn maxA d b sr fuel attempt).1 = .vetoed e ∧
    (retryGo fn maxA d b sr fuel attempt).2.2 = k + 1 - attempt := by
  induction fuel generalizing attempt with
  | zero => omega
  | succ fuel ih =>
    by_cases hek : attempt = k
    · subst hek
      simp [retryGo, hfk, hv]
    · obtain ⟨e', hfe', hse'⟩ := hbefore attempt le_rfl (by omega)
      have hne : attempt ≠ maxA := by omega
      have := ih (attempt + 1) (by omega) (by omega)
        (fun j hj1 hj2 => hbefore j (by omega) hj2)
      simp only [retryGo, hfe', hse', hne, if_false, Bool.true_eq_false]
      simp only [this.1, this.2, true_and]
      omega

/-! ### Claim C4: retry semantics -/

/-- C4.  For every attempt-outcome prescription `fn` and retry options,
`retry` calls `fn` at most `maxAttempts` times; the waits between successive
attempts follow the schedule `delay, 2·delay, 4·delay, …` when exponential
backoff is enabled and are constantly `delay` otherwise; when at least one
attempt is allowed and every attempt up to the last throws a retryable error,
`retry` itself throws (the wrapped all-attempts-failed error) after the last
attempt, having made exactly `maxAttempts` calls; and when the `k`-th attempt
throws an error vetoed by `shouldRetry` (all earlier attempts having thrown
retryable errors), that error propagates immediately after exactly `k`
calls. -/
theorem retry_spec (fn : Nat → Except ε α) (maxAttempts delay : Nat)
    (backoff : Bool) (shouldRetry : ε → Bool) :
    (retry fn maxAttempts delay backoff shouldRetry).2.2 ≤ maxAttempts ∧
    (∀ i, i < (retry fn maxAttempts delay backoff shouldRetry).2.1.length →
      (retry fn maxAttempts delay backoff shouldRetry).2.1.getD i 0 =
        if backoff then delay * 2 ^ i else delay) ∧
    (1 ≤ maxAttempts →
      (∀ k, 1 ≤ k → k ≤ maxAttempts →
        ∃ e, fn k = .error e ∧ shouldRetry e = true) →
      (∃ e, (retry fn maxAttempts delay backoff shouldRetry).1 = .allFailed e ∧
            fn maxAttempts = .error e) ∧
      (retry fn maxAttempts delay backoff shouldRetry).2.2 = maxAttempts) ∧
    (∀ k e, 1 ≤ k → k ≤ maxAttempts → fn k = .error e → shouldRetry e = false →
      (∀ j, 1 ≤ j → j < k → ∃ e', fn j = .error e' ∧ shouldRetry e' = true) →
      (retry fn maxAttempts delay backoff shouldRetry).1 = .vetoed e ∧
      (retry fn maxAttempts delay backoff shouldRetry).2.2 = k) := by
  simp only [retry]
  refine ⟨retryGo_calls_le fn maxAttempts delay backoff shouldRetry maxAttempts 1,
    ?_, ?_, ?_⟩
  · intro i h
    simpa using retryGo_waits fn maxAttempts delay backoff shouldRetry
      maxAttempts 1 le_rfl i h
  · intro hm herr
    exact retryGo_allFailed fn maxAttempts delay backoff shouldRetry
      maxAttempts 1 (by omega) hm herr
  · intro k e hk1 hkm hfk hv hbefore
    have := retryGo_vetoed fn maxAttempts delay backoff shouldRetry
      maxAttempts 1 k e (by omega) hk1 hkm
      (fun j hj1 hj2 => hbefore j hj1 hj2) hfk hv
    refine ⟨this.1, ?_⟩
    have h2 := this.2
    omega

/-- Witness for C4 at a concrete prescription: `maxAttempts = 2`, both
attempts throwing a retryable error, exercising the exhaustion clause. -/
theorem retry_spec_witness :
    (∃ e, (retry (fun _ => (Except.error 7 : Except Nat Unit)) 2 100 true
             (fun _ => true)).1 = RetryResult.allFailed e ∧
          (fun _ => (Except.error 7 : Except Nat Unit)) 2 = .error e) ∧
    (retry (fun _ => (Except.error 7 : Except Nat Unit)) 2 100 true
       (fun _ => true)).2.2 = 2 :=
  ((retry_spec (fun _ => (Except.error 7 : Except Nat Unit)) 2 100 true
     (fun _ => true)).2.2.1 (by decide) (fun k _ _ => ⟨7, rfl, rfl⟩))

/-! ### Session manager: page pool (src/utils/session.js)

`releasePage` (closure created at lines 201-250, identical to lines 126-175)
closes the page when the session no longer exists; otherwise it probes the
page with `page.evaluate(() => true)`, and when the probe succeeds and the
pool is below `MAX_PAGES_PER_SESSION` it navigates the page to `about:blank`,
clears local and session storage and pushes it; a failing reset, an invalid
page, a full pool, or any other error closes the page.  `getSession` (line
100) pops a page from the pool; `closeSession` (lines 264-274) closes and
clears the pool.  Pages are numbered; the pool is the list of pooled page
numbers. -/

/-- Maximum number of pages kept per session (src/utils/session.js line 80). -/
def MAX_PAGES_PER_SESSION : Nat := 5

/-- Prescribed outcomes of the effectful steps inside `releasePage`. -/
structure ReleaseEnv where
  sessionExists : Bool
  pageValid : Bool
  resetOk : Bool

/-- What happened to the released page. -/
inductive ReleaseOutcome where
  | pooled
  | closed
  deriving DecidableEq, Repr

/-- Translation of the `releasePage` closure (src/utils/session.js lines
201-250): outcome for the page and the new pool. -/
def releasePage (env : ReleaseEnv) (pool : List Nat) (page : Nat) :
    ReleaseOutcome × List Nat :=
  if env.sessionExists = false then (.closed, pool)
  else if env.pageValid = false then (.closed, pool)
  else if pool.length < MAX_PAGES_PER_SESSION then
    if env.resetOk then (.pooled, pool ++ [page]) else (.closed, pool)
  else (.closed, pool)

/-- Pool shrinkage when `getSession` pops a pooled page
(src/utils/session.js line 100, `session.pagePool.pop()`). -/
def getSessionPoolAfter (pool : List Nat) : List Nat :=
  pool.dropLast

/-! ### Claim C7: pool cap and `releasePage` discipline -/

/-- C7.  The page pool never exceeds its cap of 5: `releasePage` preserves the
bound (it pushes only below the cap), as does the `getSession` pop.  Every
call to `releasePage` either pools the page — exactly when the session still
exists, the validity probe succeeded, the pool was below the cap and the
blank-navigation/storage-clear reset succeeded, in which case the page is
appended to the pool — or closes the page, leaving the pool unchanged; every
error path closes the page. -/
theorem releasePage_spec (env : ReleaseEnv) (pool : List Nat) (page : Nat) :
    (pool.length ≤ MAX_PAGES_PER_SESSION →
      (releasePage env pool page).2.length ≤ MAX_PAGES_PER_SESSION) ∧
    ((releasePage env pool page).1 = .pooled ↔
      env.sessionExists = true ∧ env.pageValid = true ∧ env.resetOk = true ∧
      pool.length < MAX_PAGES_PER_SESSION) ∧
    ((releasePage env pool page).1 = .pooled →
      (releasePage env pool page).2 = pool ++ [page]) ∧
    ((releasePage env pool page).1 = .closed →
      (releasePage env pool page).2 = pool) ∧
    (pool.length ≤ MAX_PAGES_PER_SESSION →
      (getSessionPoolAfter pool).length ≤ MAX_PAGES_PER_SESSION) := by
  obtain ⟨se, pv, ro⟩ := env
  refine ⟨?_, ?_, ?_, ?_, ?_⟩
  · intro h
    simp only [MAX_PAGES_PER_SESSION] at h
    simp only [releasePage, MAX_PAGES_PER_SESSION]
    split_ifs <;> (try simp) <;> omega
  · simp only [releasePage]
    split_ifs <;> simp_all
  · simp only [releasePage]
    split_ifs <;> simp_all
  · simp only [releasePage]
    split_ifs <;> simp_all
  · intro h
    simp only [getSessionPoolAfter, List.length_dropLast]
    omega

/-- Witness for C7 at a concrete state: valid page, successful reset, pool of
length 4 (below the cap), so the page is pooled and the cap is preserved. -/
theorem releasePage_spec_witness :
    ([1, 2, 3, 4].length ≤ MAX_PAGES_PER_SESSION →
      (releasePage ⟨true, true, true⟩ [1, 2, 3, 4] 9).2.length ≤
        MAX_PAGES_PER_SESSION) ∧
    ((releasePage ⟨true, true, true⟩ [1, 2, 3, 4] 9).1 = .pooled →
      (releasePage ⟨true, true, true⟩ [1, 2, 3, 4] 9).2 = [1, 2, 3, 4] ++ [9]) :=
  ⟨(releasePage_spec ⟨true, true, true⟩ [1, 2, 3, 4] 9).1,
   (releasePage_spec ⟨true, true, true⟩ [1, 2, 3, 4] 9).2.2.1⟩

/-! ### Orchestrator payload loop (src/unnamed/part_002, lines 444-838)

For each payload the loop: computes the cache key and, when caching is
enabled and a non-expired entry exists, pushes a `fromCache` TestResult only
if the entry is positive (`detected || executed`, lines 464-490) and skips the
page work; otherwise it resets `window.__xssDetected` when `verifyExecution`
is truthy (lines 492-497), fills and submits (page activity may set the
flag), determines `detected` by substring search in the page content (lines
735-744), reads the flag as `executionVerified` only under `verifyExecution`
(lines 746-762), pushes a TestResult only when `detected || executionVerified`
(lines 775-786), and writes the outcome — positive or negative — to the cache
when caching is enabled (lines 788-819).

The cache is modelled as a map keyed by the canonical fingerprint data
(`CacheKey`, the pre-hash content of `generateCacheKey`); per-payload page
activity is prescribed by a `PayloadObs` paired with each payload, and the
loop models payload tests whose page actions succeed (an action failure
aborts the loop through the orchestrator's catch handler and produces no
further results).  Effectiveness-store updates (line 765) are store I/O with
no effect on the produced results and are not modelled. -/

/-- TestResult as pushed by the loop (`fromCache` is absent, hence false, on
freshly tested payloads). -/
structure TestResult where
  payload : String
  reflected : Bool
  executed : Bool
  fromCache : Bool
  deriving DecidableEq, Repr

/-- CachedResult as written at lines 790-794 and 808-812. -/
structure CachedResult where
  detected : Bool
  executed : Bool
  deriving DecidableEq, Repr

/-- Canonical cache-key data: exactly the fields serialized by
`generateCacheKey` (the md5 digest of their JSON rendering is the on-disk
file name; two keys collide only if md5 collides). -/
structure CacheKey where
  url : String
  inputFieldSelector : String
  payload : String
  options : RelevantOptions
  deriving DecidableEq

/-- Per-job configuration distilled from `mergedOptions`: the options object
(consulted for `verifyExecution` truthiness and the cache key) and the
truthiness of `mergedOptions.cache && mergedOptions.cache.enabled`. -/
structure LoopConfig where
  url : String
  inputFieldSelector : String
  opts : List (String × JVal)
  cacheEnabled : Bool

/-- Prescribed page behaviour while one payload is tested. -/
structure PayloadObs where
  reflectedInContent : Bool
  monitorFired : Bool
  deriving DecidableEq, Repr

/-- Mutable state threaded through the loop: the results array, the cache
store, and the in-page `window.__xssDetected` flag. -/
structure LoopState where
  results : List TestResult
  cache : CacheKey → Option CachedResult
  xssFlag : Bool

/-- Truthiness of `mergedOptions.verifyExecution`. -/
def verifyExecutionOn (o : List (String × JVal)) : Bool :=
  truthy (jlookup o "verifyExecution")

/-- Cache key for one payload (line 450, `generateCacheKey(url,
inputFieldSelector, payload, mergedOptions)`). -/
def mkCacheKey (cfg : LoopConfig) (payload : String) : CacheKey :=
  ⟨cfg.url, cfg.inputFieldSelector, payload, relevantOptions cfg.opts⟩

/-- Translation of one iteration of the payload loop
(src/unnamed/part_002 lines 444-838). -/
def testOnePayload (cfg : LoopConfig) (obs : PayloadObs) (st : LoopState)
    (payload : String) : LoopState :=
  let key := mkCacheKey cfg payload
  let cached := if cfg.cacheEnabled then st.cache key else none
  match cached with
  | some c =>
    { st with results := st.results ++
        (if c.detected || c.executed then [⟨payload, c.detected, c.executed, true⟩]
         else []) }
  | none =>
    let flag0 := if verifyExecutionOn cfg.opts then false else st.xssFlag
    let flag1 := flag0 || obs.monitorFired
    let detected := obs.reflectedInContent
    let executed := if verifyExecutionOn cfg.opts then flag1 else false
    { results := st.results ++
        (if detected || executed then [⟨payload, detected, executed, false⟩]
         else [])
    , cache := if cfg.cacheEnabled then
        (fun k => if k = key then some ⟨detected, executed⟩ else st.cache k)
      else st.cache
    , xssFlag := flag1 }

/-- The payload loop: payloads in selector order, each paired with its
prescribed page observations. -/
def detectLoop (cfg : LoopConfig) (pl : List (String × PayloadObs))
    (st : LoopState) : LoopState :=
  pl.foldl (fun s pw => testOnePayload cfg pw.2 s pw.1) st

theorem relevantOptions_verify_false (o : List (String × JVal))
    (h : truthy (jlookup o "verifyExecution") = false) :
    (relevantOptions o).verifyExecution = .vbool false := by
  simp [relevantOptions, jsOr, h]

theorem testOnePayload_results_nocache (cfg : LoopConfig) (obs : PayloadObs)
    (st : LoopState) (p : String) (hc : cfg.cacheEnabled = false) :
    (testOnePayload cfg obs st p).results = st.results ++
      (if obs.reflectedInContent || (verifyExecutionOn cfg.opts && obs.monitorFired)
       then [⟨p, obs.reflectedInContent,
             verifyExecutionOn cfg.opts && obs.monitorFired, false⟩]
       else []) := by
  by_cases hv : verifyExecutionOn cfg.opts <;> simp [testOnePayload, hc, hv]

/-! ### Claim C2: one TestResult per payload

The claim asserts that every payload of the selected list yields exactly one
TestResult, in particular also when the payload is neither reflected nor
executed.  The code pushes a result only when `detected || executionVerified`
(line 775) — and, on a cache hit, only when the entry is positive (line 465) —
so a clean payload yields no TestResult at all.  The counterexample below
exhibits this; the amended statement characterises the produced results. -/

/-- Counterexample to C2 as stated: a single payload that is neither
reflected nor executed produces zero TestResults, not one. -/
theorem detectLoop_negative_payload_counterexample :
    (detectLoop ⟨"http://t", "#q", [("verifyExecution", JVal.vbool true)], false⟩
        [("<b>x</b>", ⟨false, false⟩)] ⟨[], fun _ => none, false⟩).results = [] := by
  decide

/-- C2 (amended).  With caching disabled, the loop appends exactly one
TestResult for each payload that is reflected or executed and none for a
clean payload; the result's `reflected` field is the observed content match
and its `executed` field is the monitor verdict of that payload alone
(`verifyExecution ∧ monitorFired`), independent of the incoming flag state
and of every other payload's observations, because the flag is reset before
each fresh test.  On a cache hit, the single appended TestResult (present
exactly when the entry is positive) carries the cached `detected`/`executed`
fields and is marked `fromCache`. -/
theorem detectLoop_result_per_payload (cfg : LoopConfig)
    (pl : List (String × PayloadObs)) (st : LoopState) :
    (cfg.cacheEnabled = false →
      (detectLoop cfg pl st).results = st.results ++ pl.filterMap (fun pw =>
        if pw.2.reflectedInContent || (verifyExecutionOn cfg.opts && pw.2.monitorFired)
        then some ⟨pw.1, pw.2.reflectedInContent,
                   verifyExecutionOn cfg.opts && pw.2.monitorFired, false⟩
        else none)) ∧
    (∀ (obs : PayloadObs) (c : CachedResult) (payload : String),
      cfg.cacheEnabled = true → st.cache (mkCacheKey cfg payload) = some c →
      (testOnePayload cfg obs st payload).results = st.results ++
        (if c.detected || c.executed
         then [⟨payload, c.detected, c.executed, true⟩] else [])) := by
  constructor
  · intro hc
    induction pl generalizing st with
    | nil => simp [detectLoop]
    | cons pw ps ih =>
      have hstep := testOnePayload_results_nocache cfg pw.2 st pw.1 hc
      calc (detectLoop cfg (pw :: ps) st).results
          = (detectLoop cfg ps (testOnePayload cfg pw.2 st pw.1)).results := rfl
        _ = (testOnePayload cfg pw.2 st pw.1).results ++ ps.filterMap _ :=
            ih (testOnePayload cfg pw.2 st pw.1)
        _ = _ := by
            rw [hstep, List.filterMap_cons]
            split <;> simp
  · intro obs c payload hc hhit
    simp [testOnePayload, hc, hhit]

/-- Witness for C2 (amended) at a concrete job: caching disabled,
`verifyExecution` truthy, initial flag polluted (true); payload "a" is
reflected only, "b" executes only, "c" is clean and yields no result. -/
theorem detectLoop_result_per_payload_witness :
    (detectLoop ⟨"http://t", "#q", [("verifyExecution", JVal.vbool true)], false⟩
        [("a", ⟨true, false⟩), ("b", ⟨false, true⟩), ("c", ⟨false, false⟩)]
        ⟨[], fun _ => none, true⟩).results =
      [⟨"a", true, false, false⟩, ⟨"b", false, true, false⟩] :=
  ((detectLoop_result_per_payload
      ⟨"http://t", "#q", [("verifyExecution", JVal.vbool true)], false⟩
      [("a", ⟨true, false⟩), ("b", ⟨false, true⟩), ("c", ⟨false, false⟩)]
      ⟨[], fun _ => none, true⟩).1 rfl).trans (by decide)

/-! ### Claim C6: `verifyExecution = false` forces `executed = false` -/

/-- A cache store is well formed when every entry stored under a fingerprint
whose `verifyExecution` component is `false` has `executed = false`.  Entries
are only written by the loop itself (lines 788-819), which preserves this. -/
def CacheWellFormed (cache : CacheKey → Option CachedResult) : Prop :=
  ∀ k c, cache k = some c → k.options.verifyExecution = .vbool false →
    c.executed = false

theorem testOnePayload_verify_off (cfg : LoopConfig) (obs : PayloadObs)
    (st : LoopState) (p : String)
    (hv : verifyExecutionOn cfg.opts = false)
    (hwf : CacheWellFormed st.cache)
    (hres : ∀ r ∈ st.results, r.executed = false) :
    (∀ r ∈ (testOnePayload cfg obs st p).results, r.executed = false) ∧
    CacheWellFormed (testOnePayload cfg obs st p).cache := by
  have hrel : (relevantOptions cfg.opts).verifyExecution = .vbool false :=
    relevantOptions_verify_false _ hv
  rcases hhit : (if cfg.cacheEnabled then st.cache (mkCacheKey cfg p) else none)
    with _ | c
  · constructor
    · intro r hr
      simp only [testOnePayload, hhit, hv, Bool.false_eq_true, if_false,
        Bool.or_false, List.mem_append] at hr
      rcases hr with hr | hr
      · exact hres r hr
      · split at hr <;> simp_all
    · intro k c hk hkv
      simp only [testOnePayload, hhit] at hk
      by_cases hce : cfg.cacheEnabled
      · simp only [hce, if_true] at hk
        by_cases hkey : k = mkCacheKey cfg p
        · simp only [hkey, if_pos rfl] at hk
          cases hk
          simp [hv]
        · rw [if_neg hkey] at hk
          exact hwf k c hk hkv
      · simp only [hce, if_false] at hk
        exact hwf k c hk hkv
  · have hc : cfg.cacheEnabled = true ∧ st.cache (mkCacheKey cfg p) = some c := by
      by_cases hce : cfg.cacheEnabled <;> simp_all
    have hcx : c.executed = false := by
      refine hwf (mkCacheKey cfg p) c hc.2 ?_
      simp [mkCacheKey, hrel]
    constructor
    · intro r hr
      simp only [testOnePayload, hhit, List.mem_append] at hr
      rcases hr with hr | hr
      · exact hres r hr
      · split at hr <;> simp_all
    · intro k c' hk hkv
      simp only [testOnePayload, hhit] at hk
      exact hwf k c' hk hkv

/-- C6.  If `mergedOptions.verifyExecution` is falsy then every TestResult
produced by the payload loop — freshly tested or derived from a well-formed
cache — has `executed = false`, and the loop keeps the cache well formed: the
fingerprint keys entries by the coerced `verifyExecution` flag, so entries
reachable under a falsy flag were written by runs that could not set
`executed`. -/
theorem detectLoop_verify_off (cfg : LoopConfig)
    (pl : List (String × PayloadObs)) (st : LoopState)
    (hv : verifyExecutionOn cfg.opts = false)
    (hwf : CacheWellFormed st.cache)
    (hres : ∀ r ∈ st.results, r.executed = false) :
    (∀ r ∈ (detectLoop cfg pl st).results, r.executed = false) ∧
    CacheWellFormed (detectLoop cfg pl st).cache := by
  induction pl generalizing st with
  | nil => exact ⟨hres, hwf⟩
  | cons pw ps ih =>
    have hstep := testOnePayload_verify_off cfg pw.2 st pw.1 hv hwf hres
    exact ih (testOnePayload cfg pw.2 st pw.1) hstep.2 hstep.1

/-- Witness for C6 at a concrete job: `verifyExecution` missing (falsy),
caching enabled, empty initial cache, a payload whose page activity fires the
monitor — its TestResult still reports `executed = false`. -/
theorem detectLoop_verify_off_witness :
    (∀ r ∈ (detectLoop ⟨"u", "#i", [], true⟩ [("a", ⟨true, true⟩)]
        ⟨[], fun _ => none, false⟩).results, r.executed = false) ∧
    CacheWellFormed (detectLoop ⟨"u", "#i", [], true⟩ [("a", ⟨true, true⟩)]
        ⟨[], fun _ => none, false⟩).cache :=
  detectLoop_verify_off ⟨"u", "#i", [], true⟩ [("a", ⟨true, true⟩)]
    ⟨[], fun _ => none, false⟩ rfl (fun _ c h _ => by cases h)
    (fun r hr => absurd hr (List.not_mem_nil r))

/-! ### Orchestrator skeleton: acquisition, try/catch/finally, teardown
(src/unnamed/part_002, lines 155-975)

`detectXSS` declares `fileConfig` (156), `mergedOptions` (165), `browser`,
`context`, `page`, `sessionWasReused` (178-179) and `results` (291) at
function scope.  `releasePage` is a `const` declared at line 240 **inside**
the `if (mergedOptions.session) { … }` block (lines 182-247), and
`totalPayloads`/`processedPayloads` are declared at lines 435-436 **inside**
the `try` block (lines 293-838); both bindings go out of scope when their
block ends.  The `finally` block (lines 841-930) nevertheless reads
`processedPayloads` at line 844 (when `logging.showProgress` is on) and
`releasePage` at line 851 (when session options are set); under JavaScript
scoping each of those reads throws a `ReferenceError`, which aborts the call
from inside `finally`.

The scope is modelled explicitly: a block executes with the list of
identifier names visible in it, and reading a name not in the list throws
`ReferenceError`, exactly as the engine does.  Browser launch (line 285, or
inside `getSession` at line 227) happens before the `try`, so its failure
rejects the call; navigation (line 306) and monitor installation (line 310,
only under `verifyExecution`) happen inside the `try`, whose `catch` (lines
839-840) only logs.  A `finally` block that completes normally lets the
function proceed to report generation and return `{results, reportPaths}`. -/

/-- Errors surfacing from the modelled run. -/
inductive JsError where
  | referenceError (name : String)
  | launchError
  | navigationError
  | installError
  deriving DecidableEq, Repr

/-- Prescribed outcomes of the effectful browser operations. -/
structure BrowserEnv where
  launchOk : Bool
  navOk : Bool
  installOk : Bool

/-- The options consulted by the skeleton (all read as truthiness of the
corresponding `mergedOptions` fields). -/
structure RunOptions where
  sessionSet : Bool
  sessionSave : Bool
  sessionCloseAfter : Bool
  showProgress : Bool
  verifyExecution : Bool

/-- Teardown effects actually performed by the `finally` block. -/
structure RunEffects where
  pageReleased : Bool
  stateSaved : Bool
  sessionClosed : Bool
  pageClosed : Bool
  contextClosed : Bool
  browserClosed : Bool
  deriving DecidableEq, Repr

/-- No teardown effect has happened yet. -/
def noEffects : RunEffects := ⟨false, false, false, false, false, false⟩

/-- Identifiers declared at the function scope of `detectXSS`
(lines 156, 165, 178-179, 291); these are the only bindings still visible in
the `finally` block. -/
def functionScopeNames : List String :=
  ["fileConfig", "mergedOptions", "browser", "context", "page",
   "sessionWasReused", "results"]

/-- Identifiers declared inside the `if (mergedOptions.session)` block
(lines 183-240); they go out of scope at line 247. -/
def sessionBlockNames : List String :=
  ["sessionId", "shouldReuseSession", "sessionState", "contextOptions",
   "launchOptions", "sessionResult", "releasePage"]

/-- Identifiers declared inside the `try` block (lines 358, 435-436); they go
out of scope at line 838. -/
def tryBlockNames : List String :=
  ["payloadsToTest", "totalPayloads", "processedPayloads"]

/-- Translation of the `finally` block (lines 841-930), executed in the given
scope.  Line 844 reads `processedPayloads` when progress display is on; line
851 reads `releasePage` when session options are set; a read of a name not in
scope throws `ReferenceError`.  The returned effects are those performed
before any throw. -/
def finallyBlock (opts : RunOptions) (scope : List String) :
    Except JsError Unit × RunEffects :=
  if opts.showProgress && !(scope.contains "processedPayloads") then
    (.error (.referenceError "processedPayloads"), noEffects)
  else if opts.sessionSet then
    if !(scope.contains "releasePage") then
      (.error (.referenceError "releasePage"), noEffects)
    else
      (.ok (), { noEffects with
        pageReleased := true
        stateSaved := opts.sessionSave
        sessionClosed := opts.sessionCloseAfter })
  else
    (.ok (), { noEffects with
      pageClosed := true, contextClosed := true, browserClosed := true })

/-- Translation of the `detectXSS` control-flow skeleton (lines 155-975).
`loopResults` prescribes what the payload loop produces when it is reached;
the pair returned is the call's outcome (`.ok results` for a normal return of
`{results, reportPaths}`, `.error` for a rejected promise) together with the
teardown effects performed. -/
def detectXSSRun (env : BrowserEnv) (opts : RunOptions)
    (loopResults : List TestResult) :
    Except JsError (List TestResult) × RunEffects :=
  if !env.launchOk then (.error .launchError, noEffects)
  else
    let tryResults :=
      if !env.navOk then []
      else if opts.verifyExecution && !env.installOk then []
      else loopResults
    let fin := finallyBlock opts functionScopeNames
    match fin.1 with
    | .error e => (.error e, fin.2)
    | .ok () => (.ok tryResults, fin.2)

/-! ### Claim C1: teardown with session options

The claim (and the spec's teardown step) says a session-configured job that
reaches teardown releases the page back to the pool, optionally persists
storage state, optionally closes the session, and returns its results object.
The code stores the release closure as `const releasePage` inside the
session-acquisition block (line 240, comment "Store the releasePage function
for cleanup"), so the `finally` block's read at line 851 is outside its scope
and throws `ReferenceError: releasePage is not defined`: no page is released,
no state saved, no session closed, and the call rejects.  The code contradicts
its own cleanup comment and the spec's intent — a scoping slip. -/

/-- C1 (code bug).  A session-configured run in which every browser operation
succeeds and the payload loop found a vulnerability still rejects with the
`releasePage` ReferenceError from the `finally` block, with no teardown
effect performed (progress display off, so line 844 is not reached first). -/
theorem detectXSSRun_session_teardown_throws :
    detectXSSRun ⟨true, true, true⟩
        ⟨true, true, true, false, true⟩ [⟨"p", true, true, false⟩] =
      (.error (.referenceError "releasePage"), noEffects) := by
  rfl

/-! ### Claim C3: fatal conditions

The claim says launch, navigation and monitor-installation failures all
reject the call.  Launch failures do (they happen before the `try`), but
navigation and installation failures are swallowed by the `catch` at line 839
and the call completes, returning `{results, reportPaths}` with the results
collected so far — the counterexample below shows a navigation failure
returning `.ok []`. -/

/-- Counterexample to C3 as stated: with no session options and progress
display off, a run whose navigation fails completes and returns a results
object (empty results) instead of rejecting. -/
theorem detectXSSRun_navigation_failure_returns :
    detectXSSRun ⟨true, false, true⟩ ⟨false, false, false, false, true⟩
        [⟨"p", true, false, false⟩] =
      (.ok [], { noEffects with
        pageClosed := true, contextClosed := true, browserClosed := true }) := by
  rfl

/-- C3 (amended).  Only a browser-launch failure (in either acquisition path)
rejects the call; a navigation or monitor-installation failure is caught by
the orchestrator's catch handler and — provided teardown itself does not
throw, i.e. no session options and no progress display — the call completes
normally, returning its results object with the (empty) results collected
before the failure. -/
theorem detectXSSRun_fatal_spec (env : BrowserEnv) (opts : RunOptions)
    (loopResults : List TestResult) :
    (env.launchOk = false →
      (detectXSSRun env opts loopResults).1 = .error .launchError) ∧
    (env.launchOk = true → opts.sessionSet = false → opts.showProgress = false →
      env.navOk = false →
      (detectXSSRun env opts loopResults).1 = .ok []) ∧
    (env.launchOk = true → opts.sessionSet = false → opts.showProgress = false →
      env.navOk = true → opts.verifyExecution = true → env.installOk = false →
      (detectXSSRun env opts loopResults).1 = .ok []) := by
  refine ⟨fun h1 => ?_, fun h1 h2 h3 h4 => ?_, fun h1 h2 h3 h4 h5 h6 => ?_⟩ <;>
    simp [detectXSSRun, finallyBlock, h1, *]

/-- Witness for C3 (amended) at a concrete input: launch failure rejects. -/
theorem detectXSSRun_fatal_spec_witness :
    (detectXSSRun ⟨false, true, true⟩ ⟨false, false, false, false, true⟩ []).1 =
      .error .launchError :=
  (detectXSSRun_fatal_spec ⟨false, true, true⟩
    ⟨false, false, false, false, true⟩ []).1 rfl

/-! ### Smart payload selector: diversity pass
(src/payloads/smartSelection.js, lines 337-418)

`ensureDiversity(payloads, limit)` walks the ranked list once, taking the
first payload that fills each still-empty bucket of the if/else-if chain at
lines 355-378 (`<script`, `<img`, `<svg`, `<iframe`, an event handler among
onload/onerror/onclick/onmouseover, a quote character, a `javascript:` or
`data:` scheme) while the result is below `limit`; a second pass (lines
382-387) then appends the remaining payloads in ranked order, skipping ones
already taken, up to `limit`.  `selectSmartPayloads` finally tops up from
other contexts' generated payloads with the same skip-and-cap loop (lines
396-414) and returns `diversePayloads.slice(0, limit)` (line 418).  The model
takes the ranked, de-duplicated context payloads and the top-up payloads as
inputs (their construction is I/O- and page-driven) and covers the pure tail
from the diversity pass to the final slice. -/

/-- Occurrence of `sub` as a contiguous subsequence of `l`. -/
def charListInfix : List Char → List Char → Bool
  | sub, [] => sub.isEmpty
  | sub, l@(_ :: t) => sub.isPrefixOf l || charListInfix sub t

/-- JavaScript `String.prototype.includes`. -/
def strIncludes (s sub : String) : Bool :=
  charListInfix sub.toList s.toList

/-- The seven diversity buckets of the chain at lines 355-378; `attrQuote`
and `urlScheme` are the JS keys `attribute` and `url`. -/
inductive Bucket where
  | script
  | img
  | svg
  | iframe
  | event
  | attrQuote
  | urlScheme
  deriving DecidableEq, Repr, Fintype

/-- Bucket predicates, exactly the `payload.includes(...)` tests of the
chain. -/
def bucketMatches : Bucket → String → Bool
  | .script, p => strIncludes p "<script"
  | .img, p => strIncludes p "<img"
  | .svg, p => strIncludes p "<svg"
  | .iframe, p => strIncludes p "<iframe"
  | .event, p => strIncludes p "onload" || strIncludes p "onerror" ||
      strIncludes p "onclick" || strIncludes p "onmouseover"
  | .attrQuote, p => strIncludes p "\"" || strIncludes p "'"
  | .urlScheme, p => strIncludes p "javascript:" || strIncludes p "data:"

/-- The `categories` flags object (lines 339-347). -/
structure Categories where
  script : Bool
  img : Bool
  svg : Bool
  iframe : Bool
  event : Bool
  attrQuote : Bool
  urlScheme : Bool
  deriving DecidableEq, Repr

/-- All flags start false (lines 339-347). -/
def Categories.initial : Categories :=
  ⟨false, false, false, false, false, false, false⟩

/-- Flag of a bucket. -/
def Categories.get : Categories → Bucket → Bool
  | c, .script => c.script
  | c, .img => c.img
  | c, .svg => c.svg
  | c, .iframe => c.iframe
  | c, .event => c.event
  | c, .attrQuote => c.attrQuote
  | c, .urlScheme => c.urlScheme

/-- Number of filled buckets. -/
def countTrue (c : Categories) : Nat :=
  (if c.script then 1 else 0) + (if c.img then 1 else 0) +
  (if c.svg then 1 else 0) + (if c.iframe then 1 else 0) +
  (if c.event then 1 else 0) + (if c.attrQuote then 1 else 0) +
  (if c.urlScheme then 1 else 0)

/-- The if/else-if chain of the first pass (lines 355-378): the payload fills
the first still-empty bucket it matches, or none. -/
def chainStep (p : String) (c : Categories) : Option Categories :=
  if bucketMatches .script p && !c.script then some { c with script := true }
  else if bucketMatches .img p && !c.img then some { c with img := true }
  else if bucketMatches .svg p && !c.svg then some { c with svg := true }
  else if bucketMatches .iframe p && !c.iframe then some { c with iframe := true }
  else if bucketMatches .event p && !c.event then some { c with event := true }
  else if bucketMatches .attrQuote p && !c.attrQuote then
    some { c with attrQuote := true }
  else if bucketMatches .urlScheme p && !c.urlScheme then
    some { c with urlScheme := true }
  else none

/-- First pass of `ensureDiversity` (lines 351-379): walk the payloads,
appending each payload that fills a bucket, stopping at `limit`. -/
def firstPass (limit : Nat) :
    List String → Categories → List String → Categories × List String
  | [], cats, res => (cats, res)
  | p :: ps, cats, res =>
    if limit ≤ res.length then (cats, res)
    else
      match chainStep p cats with
      | some cats' => firstPass limit ps cats' (res ++ [p])
      | none => firstPass limit ps cats res

/-- Second pass of `ensureDiversity` (lines 381-387) and the top-up loop of
`selectSmartPayloads` (lines 407-413): append payloads not already present,
in order, up to `limit`. -/
def secondPass (limit : Nat) : List String → List String → List String
  | [], res => res
  | p :: ps, res =>
    if limit ≤ res.length then res
    else if res.contains p then secondPass limit ps res
    else secondPass limit ps (res ++ [p])

/-- Translation of `ensureDiversity` (lines 338-390). -/
def ensureDiversity (payloads : List String) (limit : Nat) : List String :=
  secondPass limit payloads (firstPass limit payloads Categories.initial []).2

/-- Pure tail of `selectSmartPayloads` (lines 392-418): diversity pass,
top-up from other contexts when short of `limit`, final `slice(0, limit)`. -/
def selectSmartPayloadsTail (payloads extra : List String) (limit : Nat) :
    List String :=
  let d := ensureDiversity payloads limit
  let d2 := if d.length < limit then secondPass limit extra d else d
  d2.take limit

/-- The seven buckets, for counting coverage. -/
def allBuckets : List Bucket :=
  [.script, .img, .svg, .iframe, .event, .attrQuote, .urlScheme]

theorem countTrue_le_seven (c : Categories) : countTrue c ≤ 7 := by
  unfold countTrue
  split_ifs <;> omega

theorem countTrue_eq_seven (c : Categories) (h : countTrue c = 7) :
    ∀ b, c.get b = true := by
  intro b
  obtain ⟨s, i, v, f, e, a, u⟩ := c
  cases s <;> cases i <;> cases v <;> cases f <;> cases e <;> cases a <;>
    cases u <;> simp_all [countTrue] <;> cases b <;> simp [Categories.get]

theorem chainStep_none (p : String) (c : Categories)
    (h : chainStep p c = none) :
    ∀ b, bucketMatches b p = true → c.get b = true := by
  intro b hb
  simp only [chainStep] at h
  split_ifs at h with h1 h2 h3 h4 h5 h6 h7 <;>
    first
      | exact Option.noConfusion h
      | (cases b <;> simp_all [Categories.get])

theorem chainStep_some_cases (p : String) (c c' : Categories)
    (h : chainStep p c = some c') :
    ∀ b, c'.get b = true → c.get b = true ∨ bucketMatches b p = true := by
  intro b hb
  simp only [chainStep] at h
  split_ifs at h with h1 h2 h3 h4 h5 h6 h7 <;>
    first
      | exact Option.noConfusion h
      | (injection h with h
         subst h
         cases b <;> simp_all [Categories.get])

theorem chainStep_mono (p : String) (c c' : Categories)
    (h : chainStep p c = some c') :
    ∀ b, c.get b = true → c'.get b = true := by
  intro b hb
  simp only [chainStep] at h
  split_ifs at h with h1 h2 h3 h4 h5 h6 h7 <;>
    first
      | exact Option.noConfusion h
      | (injection h with h
         subst h
         cases b <;> simp_all [Categories.get])

theorem chainStep_countTrue (p : String) (c c' : Categories)
    (h : chainStep p c = some c') : countTrue c' = countTrue c + 1 := by
  simp only [chainStep] at h
  split_ifs at h with h1 h2 h3 h4 h5 h6 h7 <;>
    first
      | exact Option.noConfusion h
      | (injection h with h
         subst h
         simp_all [countTrue] <;> omega)

theorem firstPass_res_prefix (limit : Nat) (l : List String) (cats : Categories)
    (res : List String) :
    ∃ t, (firstPass limit l cats res).2 = res ++ t := by
  induction l generalizing cats res with
  | nil => exact ⟨[], by simp [firstPass]⟩
  | cons p ps ih =>
    simp only [firstPass]
    split
    · exact ⟨[], by simp⟩
    · cases hcs : chainStep p cats with
      | some cats' =>
        obtain ⟨t, ht⟩ := ih cats' (res ++ [p])
        exact ⟨p :: t, by simp [ht]⟩
      | none => exact ih cats res

theorem firstPass_get_mono (limit : Nat) (l : List String) (cats : Categories)
    (res : List String) (b : Bucket) (h : cats.get b = true) :
    (firstPass limit l cats res).1.get b = true := by
  induction l generalizing cats res with
  | nil => exact h
  | cons p ps ih =>
    simp only [firstPass]
    split
    · exact h
    · cases hcs : chainStep p cats with
      | some cats' => exact ih cats' (res ++ [p]) (chainStep_mono p cats cats' hcs b h)
      | none => exact ih cats res h

theorem firstPass_spec (limit : Nat) (l : List String) (cats : Categories)
    (res : List String) (hlim : 7 ≤ limit)
    (hinv : res.length = countTrue cats)
    (hcov : ∀ b, cats.get b = true → ∃ q ∈ res, bucketMatches b q = true) :
    ((firstPass limit l cats res).2.length =
      countTrue (firstPass limit l cats res).1) ∧
    (∀ b, (firstPass limit l cats res).1.get b = true →
      ∃ q ∈ (firstPass limit l cats res).2, bucketMatches b q = true) ∧
    (∀ b, (∃ p ∈ l, bucketMatches b p = true) →
      ∃ q ∈ (firstPass limit l cats res).2, bucketMatches b q = true) := by
  induction l generalizing cats res with
  | nil =>
    refine ⟨hinv, hcov, ?_⟩
    intro b hb
    obtain ⟨p, hp, _⟩ := hb
    exact absurd hp (List.not_mem_nil p)
  | cons p ps ih =>
    by_cases hbreak : limit ≤ res.length
    · have hres : firstPass limit (p :: ps) cats res = (cats, res) := by
        simp [firstPass, hbreak]
      rw [hres]
      have hall : ∀ b, cats.get b = true := by
        apply countTrue_eq_seven
        have := countTrue_le_seven cats
        omega
      exact ⟨hinv, hcov, fun b _ => hcov b (hall b)⟩
    · have heq : firstPass limit (p :: ps) cats res =
          (match chainStep p cats with
           | some cats' => firstPass limit ps cats' (res ++ [p])
           | none => firstPass limit ps cats res) := by
        simp [firstPass, hbreak]
      cases hcs : chainStep p cats with
      | some cats' =>
        rw [heq, hcs]
        have hinv' : (res ++ [p]).length = countTrue cats' := by
          rw [List.length_append, chainStep_countTrue p cats cats' hcs]
          simp [hinv]
        have hcov' : ∀ b, cats'.get b = true →
            ∃ q ∈ res ++ [p], bucketMatches b q = true := by
          intro b hb
          rcases chainStep_some_cases p cats cats' hcs b hb with h | h
          · obtain ⟨q, hq, hm⟩ := hcov b h
            exact ⟨q, List.mem_append_left _ hq, hm⟩
          · exact ⟨p, List.mem_append_right _ (List.mem_singleton_self p), h⟩
        refine ⟨(ih cats' (res ++ [p]) hinv' hcov').1,
          (ih cats' (res ++ [p]) hinv' hcov').2.1, ?_⟩
        intro b hb
        obtain ⟨q, hq, hm⟩ := hb
        rcases List.mem_cons.mp hq with hpq | hq'
        · obtain ⟨t, ht⟩ := firstPass_res_prefix limit ps cats' (res ++ [p])
          rw [ht]
          exact ⟨p, List.mem_append_left _
            (List.mem_append_right _ (List.mem_singleton_self p)), hpq ▸ hm⟩
        · exact (ih cats' (res ++ [p]) hinv' hcov').2.2 b ⟨q, hq', hm⟩
      | none =>
        rw [heq, hcs]
        refine ⟨(ih cats res hinv hcov).1, (ih cats res hinv hcov).2.1, ?_⟩
        intro b hb
        obtain ⟨q, hq, hm⟩ := hb
        rcases List.mem_cons.mp hq with hpq | hq'
        · have hcb : cats.get b = true := chainStep_none p cats hcs b (hpq ▸ hm)
          exact (ih cats res hinv hcov).2.1 b
            (firstPass_get_mono limit ps cats res b hcb)
        · exact (ih cats res hinv hcov).2.2 b ⟨q, hq', hm⟩

theorem secondPass_spec (limit : Nat) (l res : List String) :
    ∃ t, secondPass limit l res = res ++ t ∧ t.Sublist l ∧
      ∀ x ∈ t, x ∉ res := by
  induction l generalizing res with
  | nil => exact ⟨[], by simp [secondPass], List.Sublist.refl _, by simp⟩
  | cons p ps ih =>
    by_cases hb : limit ≤ res.length
    · refine ⟨[], ?_, List.nil_sublist _, by simp⟩
      simp only [secondPass]
      rw [if_pos hb]
      simp
    · by_cases hc : res.contains p
      · obtain ⟨t, ht, hs, hn⟩ := ih res
        refine ⟨t, ?_, hs.cons p, hn⟩
        simp only [secondPass]
        rw [if_neg hb, if_pos hc]
        exact ht
      · obtain ⟨t, ht, hs, hn⟩ := ih (res ++ [p])
        refine ⟨p :: t, ?_, hs.cons₂ p, ?_⟩
        · simp only [secondPass]
          rw [if_neg hb, if_neg hc, ht]
          simp
        · intro x hx hmem
          rcases List.mem_cons.mp hx with rfl | hx'
          · exact hc (by simpa [List.contains, List.elem_iff] using hmem)
          · exact hn x hx' (List.mem_append_left _ hmem)

/-! ### Claim C9: diversity guarantees of the smart selector -/

/-- C9.  The selector returns at most `limit` payloads.  When `limit ≥ 7` and
every one of the seven buckets has a matching payload in the ranked list, the
first 7 returned payloads cover at least 6 distinct buckets (in fact all 7:
the first pass either fills a bucket or has already consumed, into the
result, every payload matching it).  The slots after the first-pass picks are
filled from the ranked list in order: the remainder is an order-preserving
sublist of the ranked list, skipping payloads already picked. -/
theorem selectSmartPayloadsTail_spec (payloads extra : List String)
    (limit : Nat) :
    (selectSmartPayloadsTail payloads extra limit).length ≤ limit ∧
    (7 ≤ limit → (∀ b : Bucket, ∃ p ∈ payloads, bucketMatches b p = true) →
      6 ≤ (allBuckets.filter (fun b =>
        ((selectSmartPayloadsTail payloads extra limit).take 7).any
          (fun q => bucketMatches b q))).length) ∧
    (∃ t, ensureDiversity payloads limit =
        (firstPass limit payloads Categories.initial []).2 ++ t ∧
      t.Sublist payloads ∧
      ∀ x ∈ t, x ∉ (firstPass limit payloads Categories.initial []).2) := by
  refine ⟨?_, ?_, secondPass_spec limit payloads _⟩
  · simp only [selectSmartPayloadsTail]
    exact List.length_take_le _ _
  · intro hlim hrep
    have hinit : ∀ b, Categories.initial.get b = true →
        ∃ q ∈ ([] : List String), bucketMatches b q = true := by
      intro b hb
      cases b <;> simp [Categories.initial, Categories.get] at hb
    have hspec := firstPass_spec limit payloads Categories.initial [] hlim
      (by simp [countTrue, Categories.initial]) hinit
    have hcovfp : ∀ b, ∃ q ∈ (firstPass limit payloads Categories.initial []).2,
        bucketMatches b q = true := fun b => hspec.2.2 b (hrep b)
    have hlen : (firstPass limit payloads Categories.initial []).2.length ≤ 7 := by
      rw [hspec.1]
      exact countTrue_le_seven _
    have hsub : ∀ q ∈ (firstPass limit payloads Categories.initial []).2,
        q ∈ (selectSmartPayloadsTail payloads extra limit).take 7 := by
      intro q hq
      obtain ⟨t, ht, _, _⟩ := secondPass_spec limit payloads
        (firstPass limit payloads Categories.initial []).2
      have hd2 : ∃ t3, (if (ensureDiversity payloads limit).length < limit then
          secondPass limit extra (ensureDiversity payloads limit)
        else ensureDiversity payloads limit) =
          (firstPass limit payloads Categories.initial []).2 ++ t3 := by
        split
        · obtain ⟨t2, ht2, _, _⟩ := secondPass_spec limit extra
            (ensureDiversity payloads limit)
          refine ⟨t ++ t2, ?_⟩
          rw [ht2, ensureDiversity, ht, List.append_assoc]
        · exact ⟨t, by rw [ensureDiversity, ht]⟩
      obtain ⟨t3, ht3⟩ := hd2
      have hsel : (selectSmartPayloadsTail payloads extra limit).take 7 =
          ((firstPass limit payloads Categories.initial []).2 ++ t3).take 7 := by
        simp only [selectSmartPayloadsTail]
        rw [ht3, List.take_take]
        congr 1
        omega
      rw [hsel, List.take_append_eq_append_take,
        List.take_of_length_le hlen]
      exact List.mem_append_left _ hq
    have hall : ∀ b ∈ allBuckets,
        (((selectSmartPayloadsTail payloads extra limit).take 7).any
          (fun q => bucketMatches b q)) = true := by
      intro b _
      obtain ⟨q, hq, hm⟩ := hcovfp b
      exact List.any_eq_true.mpr ⟨q, hsub q hq, hm⟩
    rw [List.filter_eq_self.mpr hall]
    simp [allBuckets]

/-- Witness for C9 at a concrete ranked list: eight payloads covering all
seven buckets, `limit = 10`; the first 7 selected cover at least 6 buckets. -/
theorem selectSmartPayloadsTail_spec_witness :
    6 ≤ (allBuckets.filter (fun b =>
      ((selectSmartPayloadsTail
          ["<script>alert(1)</script>", "<img src=x onerror=1>",
           "<svg onload=2>", "<iframe src=3>", "onmouseover=4", "'q",
           "javascript:5", "plain"] [] 10).take 7).any
        (fun q => bucketMatches b q))).length :=
  (selectSmartPayloadsTail_spec
    ["<script>alert(1)</script>", "<img src=x onerror=1>",
     "<svg onload=2>", "<iframe src=3>", "onmouseover=4", "'q",
     "javascript:5", "plain"] [] 10).2.1 (by decide) (by decide)

/-! ### Parallel scheduler (src/unnamed/part_002, lines 994-1168)

`detectXSSParallel` throws on an empty job list (line 1020), then processes
`testConfigs` in contiguous slices of `concurrency` (`for (let i = 0; i <
len; i += concurrency)`, `slice(i, i + concurrency)`, lines 1034-1036),
awaiting the whole batch (`Promise.all`, line 1132) before the next slice.
Each launched job yields `{result, stopTesting}` with `stopTesting =
stopOnFirstVulnerability && result.results.length > 0` (line 1107; a job that
throws yields an error result with empty `results` and `stopTesting: false`,
lines 1113-1127).  The collection loop (lines 1135-1142) pushes results in
batch order and breaks after the first `stopTesting`; the outer loop breaks
when any job of the batch stopped (lines 1145-1147).

Jobs are abstract (`α`); `run j` prescribes the number of TestResults the
`detectXSS` call for job `j` returns (0 when it throws).  The model returns
the list of jobs launched and the list of pushed `(job, result-count)`
entries. -/

/-- Bounded-fuel chunking; with `fuel = l.length` and `c ≥ 1` this is the
`slice(i, i + c)` batching of the source loop. -/
def chunksOfAux (c : Nat) : Nat → List α → List (List α)
  | _, [] => []
  | 0, _ :: _ => []
  | fuel + 1, p :: t => ((p :: t).take c) :: chunksOfAux c fuel ((p :: t).drop c)

/-- Contiguous batches of size `c` (last batch possibly shorter). -/
def chunksOf (c : Nat) (l : List α) : List (List α) :=
  chunksOfAux c l.length l

/-- One batch launched in parallel (lines 1041-1129): each job's pushed entry
and its stop flag. -/
def processBatch (stopOnFirst : Bool) (run : α → Nat) (batch : List α) :
    List (α × Nat × Bool) :=
  batch.map (fun j => (j, run j, stopOnFirst && decide (0 < run j)))

/-- The result-collection loop (lines 1135-1142): push in order, break after
the first stopping entry. -/
def collectBatch : List (α × Nat × Bool) → List (α × Nat)
  | [] => []
  | (j, n, s) :: rest => (j, n) :: (if s then [] else collectBatch rest)

/-- The outer batch loop (lines 1034-1148). -/
def runBatches (stopOnFirst : Bool) (run : α → Nat) :
    List (List α) → List α × List (α × Nat)
  | [] => ([], [])
  | b :: bs =>
    let br := processBatch stopOnFirst run b
    if br.any (fun x => x.2.2) then (b, collectBatch br)
    else
      let r := runBatches stopOnFirst run bs
      (b ++ r.1, collectBatch br ++ r.2)

/-- Translation of `detectXSSParallel` (lines 994-1168): reject an empty job
list (line 1020), then run the batches; returns (jobs launched, entries
pushed into `results`). -/
def detectXSSParallel (concurrency : Nat) (stopOnFirst : Bool)
    (run : α → Nat) (testConfigs : List α) :
    Except String (List α × List (α × Nat)) :=
  match testConfigs with
  | [] => .error "testConfigs must be a non-empty array of test configurations"
  | p :: t => .ok (runBatches stopOnFirst run (chunksOf concurrency (p :: t)))

theorem chunksOfAux_congr (c : Nat) (hc : 1 ≤ c) :
    ∀ f1 f2 (l : List α), l.length ≤ f1 → l.length ≤ f2 →
      chunksOfAux c f1 l = chunksOfAux c f2 l := by
  intro f1
  induction f1 with
  | zero =>
    intro f2 l h1 _
    have : l = [] := by cases l <;> simp_all
    subst this
    cases f2 <;> simp [chunksOfAux]
  | succ f1 ih =>
    intro f2 l h1 h2
    cases l with
    | nil => cases f2 <;> simp [chunksOfAux]
    | cons p t =>
      cases f2 with
      | zero => simp at h2
      | succ f2 =>
        simp only [chunksOfAux]
        congr 1
        apply ih
        · simp only [List.length_drop, List.length_cons]
          simp at h1
          omega
        · simp only [List.length_drop, List.length_cons]
          simp at h2
          omega

theorem chunksOf_cons (c : Nat) (hc : 1 ≤ c) (l : List α) (hl : l ≠ []) :
    chunksOf c l = l.take c :: chunksOf c (l.drop c) := by
  cases l with
  | nil => exact absurd rfl hl
  | cons p t =>
    simp only [chunksOf, List.length_cons, chunksOfAux]
    congr 1
    apply chunksOfAux_congr c hc
    · simp only [List.length_drop, List.length_cons]
      omega
    · exact le_rfl

theorem chunksOf_flatten (c : Nat) (hc : 1 ≤ c) :
    ∀ fuel (l : List α), l.length ≤ fuel → (chunksOf c l).flatten = l := by
  intro fuel
  induction fuel with
  | zero =>
    intro l hl
    have : l = [] := by cases l <;> simp_all
    subst this
    simp [chunksOf, chunksOfAux]
  | succ fuel ih =>
    intro l hl
    cases l with
    | nil => simp [chunksOf, chunksOfAux]
    | cons p t =>
      rw [chunksOf_cons c hc (p :: t) (by simp)]
      simp only [List.flatten_cons]
      rw [ih ((p :: t).drop c) (by simp at hl ⊢; omega)]
      exact List.take_append_drop c (p :: t)

theorem chunksOf_sizes (c : Nat) (hc : 1 ≤ c) :
    ∀ fuel (l : List α), l.length ≤ fuel →
      ∀ b ∈ chunksOf c l, b ≠ [] ∧ b.length ≤ c := by
  intro fuel
  induction fuel with
  | zero =>
    intro l hl b hb
    have : l = [] := by cases l <;> simp_all
    subst this
    simp [chunksOf, chunksOfAux] at hb
  | succ fuel ih =>
    intro l hl b hb
    cases l with
    | nil => simp [chunksOf, chunksOfAux] at hb
    | cons p t =>
      rw [chunksOf_cons c hc (p :: t) (by simp)] at hb
      rcases List.mem_cons.mp hb with hbh | hbt
      · subst hbh
        constructor
        · cases c with
          | zero => omega
          | succ c => simp [List.take_cons]
        · exact List.length_take_le c (p :: t)
      · exact ih ((p :: t).drop c) (by simp at hl ⊢; omega) b hbt

theorem collectBatch_all_false (br : List (α × Nat × Bool))
    (h : ∀ x ∈ br, x.2.2 = false) :
    collectBatch br = br.map (fun x => (x.1, x.2.1)) := by
  induction br with
  | nil => rfl
  | cons x rest ih =>
    obtain ⟨j, n, s⟩ := x
    have hs : s = false := h (j, n, s) (List.mem_cons_self _ _)
    subst hs
    simp only [collectBatch, Bool.false_eq_true, if_false, List.map_cons]
    rw [ih (fun y hy => h y (List.mem_cons_of_mem _ hy))]

theorem collectBatch_split (s1 : List (α × Nat × Bool)) (x : α × Nat × Bool)
    (s2 : List (α × Nat × Bool)) (h : ∀ y ∈ s1, y.2.2 = false)
    (hx : x.2.2 = true) :
    collectBatch (s1 ++ x :: s2) =
      s1.map (fun y => (y.1, y.2.1)) ++ [(x.1, x.2.1)] := by
  induction s1 with
  | nil =>
    obtain ⟨j, n, s⟩ := x
    simp only at hx
    subst hx
    simp [collectBatch]
  | cons y rest ih =>
    obtain ⟨j, n, s⟩ := y
    have hs : s = false := h (j, n, s) (List.mem_cons_self _ _)
    subst hs
    simp only [List.cons_append, collectBatch, Bool.false_eq_true, if_false,
      List.map_cons, List.append_eq]
    rw [ih (fun z hz => h z (List.mem_cons_of_mem _ hz))]

theorem processBatch_flags_false (stop : Bool) (run : α → Nat) (b : List α)
    (h : ∀ j ∈ b, stop = false ∨ run j = 0) :
    ∀ x ∈ processBatch stop run b, x.2.2 = false := by
  intro x hx
  simp only [processBatch, List.mem_map] at hx
  obtain ⟨j, hj, rfl⟩ := hx
  rcases h j hj with h' | h' <;> simp [h']

theorem runBatches_no_stop (stop : Bool) (run : α → Nat)
    (chunks : List (List α))
    (h : ∀ b ∈ chunks, ∀ j ∈ b, stop = false ∨ run j = 0) :
    runBatches stop run chunks =
      (chunks.flatten, chunks.flatten.map (fun j => (j, run j))) := by
  induction chunks with
  | nil => simp [runBatches]
  | cons b bs ih =>
    have hff := processBatch_flags_false stop run b (h b (List.mem_cons_self _ _))
    have hany : (processBatch stop run b).any (fun x => x.2.2) = false := by
      simp only [List.any_eq_false]
      intro x hx
      simp [hff x hx]
    simp only [runBatches, hany, Bool.false_eq_true, if_false]
    rw [ih (fun b' hb' => h b' (List.mem_cons_of_mem _ hb')),
      collectBatch_all_false _ hff]
    simp [processBatch, List.map_map, Function.comp_def, List.flatten_cons]

theorem runBatches_stop (run : α → Nat) (pre : List (List α))
    (b1 : List α) (j0 : α) (b2 : List α) (post : List (List α))
    (hpre : ∀ j ∈ pre.flatten, run j = 0)
    (hb1 : ∀ j ∈ b1, run j = 0) (hj0 : 0 < run j0) :
    runBatches true run (pre ++ (b1 ++ j0 :: b2) :: post) =
      (pre.flatten ++ (b1 ++ j0 :: b2),
       (pre.flatten ++ b1).map (fun j => (j, run j)) ++ [(j0, run j0)]) := by
  induction pre with
  | nil =>
    have hany : (processBatch true run (b1 ++ j0 :: b2)).any
        (fun x => x.2.2) = true := by
      apply List.any_eq_true.mpr
      refine ⟨(j0, run j0, true && decide (0 < run j0)), ?_, ?_⟩
      · simp only [processBatch, List.mem_map]
        exact ⟨j0, by simp, rfl⟩
      · simp [hj0]
    have hcoll : collectBatch (processBatch true run (b1 ++ j0 :: b2)) =
        b1.map (fun j => (j, run j)) ++ [(j0, run j0)] := by
      have hpb : processBatch true run (b1 ++ j0 :: b2) =
          (b1.map (fun j => (j, run j, true && decide (0 < run j)))) ++
            (j0, run j0, true && decide (0 < run j0)) ::
              (b2.map (fun j => (j, run j, true && decide (0 < run j)))) := by
        simp [processBatch]
      rw [hpb, collectBatch_split]
      · simp [List.map_map, Function.comp_def]
      · intro y hy
        simp only [List.mem_map] at hy
        obtain ⟨j, hj, rfl⟩ := hy
        simp [hb1 j hj]
      · simp [hj0]
    simp only [List.nil_append, runBatches, hany, if_true, hcoll,
      List.flatten_nil]
  | cons q pre ih =>
    have hq : ∀ j ∈ q, run j = 0 := by
      intro j hjq
      exact hpre j (by simp [List.flatten_cons, hjq])
    have hff := processBatch_flags_false true run q
      (fun j hjq => Or.inr (hq j hjq))
    have hany : (processBatch true run q).any (fun x => x.2.2) = false := by
      simp only [List.any_eq_false]
      intro x hx
      simp [hff x hx]
    have hpre' : ∀ j ∈ pre.flatten, run j = 0 := by
      intro j hjp
      exact hpre j (by simp [List.flatten_cons, hjp])
    simp only [List.cons_append, runBatches, hany, Bool.false_eq_true, if_false,
      List.append_eq]
    rw [ih hpre', collectBatch_all_false _ hff]
    simp [processBatch, List.map_map, Function.comp_def, List.flatten_cons,
      List.append_assoc]

theorem exists_first_pos_batch (run : α → Nat) :
    ∀ (chunks : List (List α)), (∃ j ∈ chunks.flatten, 0 < run j) →
      ∃ pre b post, chunks = pre ++ b :: post ∧
        (∀ j ∈ pre.flatten, run j = 0) ∧ ∃ j ∈ b, 0 < run j := by
  intro chunks
  induction chunks with
  | nil => intro h; simp at h
  | cons b bs ih =>
    intro h
    by_cases hb : ∃ j ∈ b, 0 < run j
    · exact ⟨[], b, bs, rfl, by simp, hb⟩
    · push_neg at hb
      have hb0 : ∀ j ∈ b, run j = 0 := fun j hjb => Nat.le_zero.mp (hb j hjb)
      have h' : ∃ j ∈ bs.flatten, 0 < run j := by
        obtain ⟨j, hjm, hpos⟩ := h
        have hjm2 : j ∈ b ++ bs.flatten := by
          rw [← List.flatten_cons]
          exact hjm
        rcases List.mem_append.mp hjm2 with hj' | hj'
        · rw [hb0 j hj'] at hpos
          exact absurd hpos (by simp)
        · exact ⟨j, hj', hpos⟩
      obtain ⟨pre, bb, post, heq, hpre, hex⟩ := ih h'
      refine ⟨b :: pre, bb, post, by rw [heq, List.cons_append], ?_, hex⟩
      intro j hjm
      have hjm2 : j ∈ b ++ pre.flatten := by
        rw [← List.flatten_cons]
        exact hjm
      rcases List.mem_append.mp hjm2 with hj' | hj'
      · exact hb0 j hj'
      · exact hpre j hj'

theorem exists_first_pos_mem (run : α → Nat) :
    ∀ (b : List α), (∃ j ∈ b, 0 < run j) →
      ∃ b1 j0 b2, b = b1 ++ j0 :: b2 ∧ (∀ j ∈ b1, run j = 0) ∧ 0 < run j0 := by
  intro b
  induction b with
  | nil => intro h; simp at h
  | cons x xs ih =>
    intro h
    by_cases hx : 0 < run x
    · exact ⟨[], x, xs, rfl, by simp, hx⟩
    · have hx0 : run x = 0 := Nat.eq_zero_of_not_pos hx
      have h' : ∃ j ∈ xs, 0 < run j := by
        obtain ⟨j, hjm, hpos⟩ := h
        rcases List.mem_cons.mp hjm with rfl | hj'
        · exact absurd hpos hx
        · exact ⟨j, hj', hpos⟩
      obtain ⟨b1, j0, b2, heq, hb1, hj0⟩ := ih h'
      refine ⟨x :: b1, j0, b2, by rw [heq, List.cons_append], ?_, hj0⟩
      intro j hjm
      rcases List.mem_cons.mp hjm with rfl | hj'
      · exact hx0
      · exact hb1 j hj'

/-! ### Claims C8 and C10: batching and stop-on-first-vulnerability -/

/-- C8.  `detectXSSParallel` rejects only an empty job list; otherwise the
jobs are processed in contiguous batches of size `concurrency` (every batch
is nonempty, of at most `concurrency` jobs, and the batches concatenate back
to the job list), each batch fully settling before the next starts.  Without
the stop flag (or with no vulnerable job) every job runs and every result is
returned in order.  With `stopOnFirstVulnerability` and some job whose result
is nonempty, the launched jobs are exactly the batches up to and including
the first batch containing such a job — every already-launched job of that
batch still runs — and no later batch is started. -/
theorem detectXSSParallel_spec (concurrency : Nat) (stop : Bool)
    (run : α → Nat) (jobs : List α) (hc : 1 ≤ concurrency) (hj : jobs ≠ []) :
    ∃ ran results,
      detectXSSParallel concurrency stop run jobs = .ok (ran, results) ∧
      (chunksOf concurrency jobs).flatten = jobs ∧
      (∀ b ∈ chunksOf concurrency jobs, b ≠ [] ∧ b.length ≤ concurrency) ∧
      ((stop = false ∨ ∀ j ∈ jobs, run j = 0) →
        ran = jobs ∧ results = jobs.map (fun j => (j, run j))) ∧
      (stop = true → (∃ j ∈ jobs, 0 < run j) →
        ∃ pre b post, chunksOf concurrency jobs = pre ++ b :: post ∧
          (∀ j ∈ pre.flatten, run j = 0) ∧ (∃ j ∈ b, 0 < run j) ∧
          ran = pre.flatten ++ b) := by
  have hflat := chunksOf_flatten concurrency hc jobs.length jobs le_rfl
  obtain ⟨p, t, rfl⟩ : ∃ p t, jobs = p :: t := by
    cases jobs with
    | nil => exact absurd rfl hj
    | cons p t => exact ⟨p, t, rfl⟩
  refine ⟨(runBatches stop run (chunksOf concurrency (p :: t))).1,
          (runBatches stop run (chunksOf concurrency (p :: t))).2,
          rfl, hflat,
          chunksOf_sizes concurrency hc (p :: t).length (p :: t) le_rfl,
          ?_, ?_⟩
  · intro hcase
    have h : ∀ b ∈ chunksOf concurrency (p :: t), ∀ j ∈ b,
        stop = false ∨ run j = 0 := by
      intro b hb j hjb
      rcases hcase with hs | hz
      · exact Or.inl hs
      · refine Or.inr (hz j ?_)
        rw [← hflat]
        exact List.mem_flatten.mpr ⟨b, hb, hjb⟩
    rw [runBatches_no_stop stop run _ h]
    exact ⟨hflat, by rw [hflat]⟩
  · intro hstop hex
    subst hstop
    have hex' : ∃ j ∈ (chunksOf concurrency (p :: t)).flatten, 0 < run j := by
      rw [hflat]
      exact hex
    obtain ⟨pre, b, post, heq, hpre, hexb⟩ := exists_first_pos_batch run _ hex'
    obtain ⟨b1, j0, b2, hbeq, hb1, hj0⟩ := exists_first_pos_mem run b hexb
    refine ⟨pre, b, post, heq, hpre, hexb, ?_⟩
    rw [heq, hbeq, runBatches_stop run pre b1 j0 b2 post hpre
      (fun j hjb => hb1 j hjb) hj0]

/-- Witness for C8 at a concrete run: three jobs, concurrency 2, stop flag on,
no job vulnerable (`run` constantly 0), so all jobs run and are returned. -/
theorem detectXSSParallel_spec_witness :
    ∃ ran results,
      detectXSSParallel 2 true (fun _ : Nat => 0) [10, 20, 30] =
        .ok (ran, results) ∧
      (chunksOf 2 [10, 20, 30]).flatten = [10, 20, 30] ∧
      (∀ b ∈ chunksOf 2 [10, 20, 30], b ≠ [] ∧ b.length ≤ 2) ∧
      ((true = false ∨ ∀ j ∈ [10, 20, 30], (fun _ : Nat => 0) j = 0) →
        ran = [10, 20, 30] ∧
        results = [10, 20, 30].map (fun j => (j, (fun _ : Nat => 0) j))) ∧
      (true = true → (∃ j ∈ [10, 20, 30], 0 < (fun _ : Nat => 0) j) →
        ∃ pre b post, chunksOf 2 [10, 20, 30] = pre ++ b :: post ∧
          (∀ j ∈ pre.flatten, (fun _ : Nat => 0) j = 0) ∧
          (∃ j ∈ b, 0 < (fun _ : Nat => 0) j) ∧
          ran = pre.flatten ++ b) :=
  detectXSSParallel_spec 2 true (fun _ : Nat => 0) [10, 20, 30]
    (by decide) (by decide)

/-- C10 (implicit claim).  When `stopOnFirstVulnerability` is on and, within
the first batch containing a vulnerable job, job `j0` (at in-batch position
`|b1|`) is the first with a nonempty result, the returned results array holds
the entries of the earlier (all-clean) batches followed by this batch's
entries only up to and including `j0`; the jobs `b2` after `j0` in the same
batch did run (they are among the launched jobs) but their results are
omitted from the returned array. -/
theorem detectXSSParallel_omits_after_stop (concurrency : Nat)
    (run : α → Nat) (jobs : List α) (hc : 1 ≤ concurrency) (hj : jobs ≠ [])
    (pre : List (List α)) (b1 : List α) (j0 : α) (b2 : List α)
    (post : List (List α))
    (hchunks : chunksOf concurrency jobs = pre ++ (b1 ++ j0 :: b2) :: post)
    (hpre : ∀ j ∈ pre.flatten, run j = 0)
    (hb1 : ∀ j ∈ b1, run j = 0) (hj0 : 0 < run j0) :
    detectXSSParallel concurrency true run jobs =
      .ok (pre.flatten ++ (b1 ++ j0 :: b2),
           (pre.flatten ++ b1).map (fun j => (j, run j)) ++ [(j0, run j0)]) ∧
    ∀ j ∈ b2, j ∈ pre.flatten ++ (b1 ++ j0 :: b2) := by
  obtain ⟨p, t, rfl⟩ : ∃ p t, jobs = p :: t := by
    cases jobs with
    | nil => exact absurd rfl hj
    | cons p t => exact ⟨p, t, rfl⟩
  constructor
  · show Except.ok (runBatches true run (chunksOf concurrency (p :: t))) = _
    rw [hchunks, runBatches_stop run pre b1 j0 b2 post hpre hb1 hj0]
  · intro j hj2
    exact List.mem_append_right _
      (List.mem_append_right _ (List.mem_cons_of_mem _ hj2))

/-- Witness for C10 at a concrete run: jobs `[0, 2, 5, 7]` with `run = id`,
concurrency 3; the first batch is `[0, 2, 5]`, job `2` is its first
vulnerable job, so job `5` runs but its result is omitted, and batch `[7]`
never runs. -/
theorem detectXSSParallel_omits_after_stop_witness :
    detectXSSParallel 3 true (fun n : Nat => n) [0, 2, 5, 7] =
      .ok (([] : List (List Nat)).flatten ++ ([0] ++ 2 :: [5]),
           ((([] : List (List Nat)).flatten ++ [0]).map
             (fun j => (j, (fun n : Nat => n) j)) ++ [(2, (fun n : Nat => n) 2)])) ∧
    ∀ j ∈ [5], j ∈ ([] : List (List Nat)).flatten ++ ([0] ++ 2 :: [5]) :=
  detectXSSParallel_omits_after_stop 3 (fun n : Nat => n) [0, 2, 5, 7]
    (by decide) (by decide) [] [0] 2 [5] [[7]] (by decide) (by decide)
    (by decide) (by decide)
